import Mathlib

/-
Verification of the schema derivation engine of marshmallow-har
(src/marshmallow_har/schema_factory.py) against its natural-language
specification.  The Python module is shallowly embedded below: Python
values (as far as the engine inspects them) become the inductive `Value`,
constructor signatures become lists of `Param`, the module-level helpers
`kwsift`, `is_model_init`, `get_schema_cls`, the field-spec extraction,
the schema synthesis in `schema_factory` and the synthesized `model_init`
are translated function by function.  Class-level mutation (setattr of
`__schema__`, `__init__`, `dump`, `load`) is modelled by explicit state
passing; execution of a synthesized constructor is modelled as a
fuel-indexed interpreter over the method-resolution-order list that
also records an event trace (which hand-written constructor ran, which
field-assignment step ran, which default factory was invoked).
-/

namespace SchemaFactory

/-- Python runtime values, as far as schema_factory.py inspects them:
None, booleans, ints, strings, lists, dicts, and zero-argument callables
(a callable is represented by the value it returns when called). -/
inductive Value where
  | vnone : Value
  | vbool : Bool → Value
  | vint : Int → Value
  | vstr : String → Value
  | vlist : List Value → Value
  | vdict : List (String × Value) → Value
  | vfunc : Value → Value

/-- Python truthiness, used by the `x or y` idioms in the source. -/
def truthy : Value → Bool
  | Value.vnone => false
  | Value.vbool b => b
  | Value.vint n => n != 0
  | Value.vstr s => !(s == "")
  | Value.vlist xs => !xs.isEmpty
  | Value.vdict xs => !xs.isEmpty
  | Value.vfunc _ => true

/-- Python `x or y`. -/
def por (a b : Value) : Value := if truthy a then a else b

/-- Python `callable(x)`: only function objects are callable here. -/
def callable : Value → Bool
  | Value.vfunc _ => true
  | _ => false

/-- Calling a zero-argument callable yields the value it carries. -/
def callValue : Value → Value
  | Value.vfunc r => r
  | v => v

/-- A Python keyword-argument dictionary (or an instance `__dict__`):
an association list keyed by strings, first hit wins. -/
abbrev KW := List (String × Value)

/-- Dictionary lookup, `kw[name]` / `kw.get(name)`. -/
def lookupKW : KW → String → Option Value
  | [], _ => none
  | (n, v) :: rest, k => if n = k then some v else lookupKW rest k

/-- Dictionary update `d[name] = v` (overwrite in place, else append). -/
def dictInsert : KW → String → Value → KW
  | [], k, v => [(k, v)]
  | (n, w) :: rest, k, v =>
    if n = k then (n, v) :: rest else (n, w) :: dictInsert rest k v

/-- The five parameter kinds of `inspect.Parameter`. -/
inductive PKind where
  | posOnly | posOrKw | varPos | kwOnly | varKw
deriving DecidableEq

/-- Keys of the FIELD_TAB registry: the builtin primitive markers
(bool, str, URL, int, datetime, Raw), the string keys for nested and
list fields, and arbitrary model classes (identified by a number). -/
inductive TypeKey where
  | kBool | kStr | kURL | kInt | kDatetime | kRaw | kNested | kList
  | kModel : Nat → TypeKey
deriving DecidableEq

/-- A parameter declared type: a primitive marker, the py3.6-typing
wrappers One[...], Many[...], List[...] with their inner argument, or
the missing-marker (Parameter.empty). -/
inductive Ann where
  | prim : TypeKey → Ann
  | one : TypeKey → Ann
  | many : TypeKey → Ann
  | listOf : TypeKey → Ann
  | emptyAnn : Ann
deriving DecidableEq

/-- `issubclass(t, (Many, One, List))`. -/
def isNestedAnn : Ann → Bool
  | Ann.one _ | Ann.many _ | Ann.listOf _ => true
  | _ => false

/-- `issubclass(t, (Many, List))`. -/
def isManyAnn : Ann → Bool
  | Ann.many _ | Ann.listOf _ => true
  | _ => false

/-- `issubclass(t, List)`. -/
def isListAnn : Ann → Bool
  | Ann.listOf _ => true
  | _ => false

/-- `issubclass(t, Raw)`. -/
def isRawAnn : Ann → Bool
  | Ann.prim TypeKey.kRaw => true
  | _ => false

/-- `t.__args__[0]`, the inner argument of One/Many/List. -/
def innerKey : Ann → TypeKey
  | Ann.one k | Ann.many k | Ann.listOf k => k
  | _ => TypeKey.kRaw

/-- A primitive declared type used directly as registry key. -/
def annKey : Ann → TypeKey
  | Ann.prim k => k
  | Ann.one _ | Ann.many _ | Ann.listOf _ => TypeKey.kNested
  | Ann.emptyAnn => TypeKey.kRaw

/-- One entry of `inspect.signature(f).parameters`: name, kind,
declared default (`none` means `Parameter.empty`), and the declared
type annotated on the parameter. -/
structure Param where
  name : String
  kind : PKind
  default : Option Value
  ann : Ann

/-- The parameter kinds `kwsift` treats as keyword-acceptable. -/
def kwAccept (k : PKind) : Bool := k = PKind.kwOnly || k = PKind.posOrKw

/-- The loop of `kwsift`: walk the (already reversed) parameter list,
return the whole dictionary on the first VAR_KEYWORD parameter, else
collect the entries whose keys name keyword-acceptable parameters. -/
def kwsiftGo (kw : KW) : List Param → KW → KW
  | [], out => out
  | p :: rest, out =>
    if p.kind = PKind.varKw then kw
    else
      match (if kwAccept p.kind then lookupKW kw p.name else none) with
      | some v => kwsiftGo kw rest (dictInsert out p.name v)
      | none => kwsiftGo kw rest out

/-- `kwsift(kw, f)` from the source: sift a keyword dictionary with
respect to a target signature, iterating the parameters backward. -/
def kwsift (kw : KW) (params : List Param) : KW :=
  kwsiftGo kw params.reverse []

/-- The `st_fieldspec` namedtuple: `(default, type, req, allow_none)`. -/
structure FieldSpec where
  default : Value
  type : Ann
  req : Bool
  allow_none : Bool

/-- One entry of `init_named_kwargs`:
`default = p.default if p.default is not Parameter.empty else None`,
`req = p.default == p.empty`, `allow_none = p.default is None`. -/
def mkFieldSpec (p : Param) : FieldSpec :=
  { default := p.default.getD Value.vnone
    type := p.ann
    req := p.default.isNone
    allow_none := match p.default with
      | some Value.vnone => true
      | _ => false }

/-- The `init_named_kwargs` comprehension: one field spec per
KEYWORD_ONLY parameter of the constructor signature, in order. -/
def extractSpecs (ps : List Param) : List (String × FieldSpec) :=
  ps.filterMap fun p =>
    if p.kind = PKind.kwOnly then some (p.name, mkFieldSpec p) else none

/-- The field classes of the codec library that FIELD_TAB maps to
(Boolean, String, Url, Integer, Nested, List, DateTime with iso format,
Raw), plus caller-supplied extension factories. -/
inductive FieldFactory where
  | boolean | stringF | url | integer | nested | listF | dateTimeIso | raw
  | ext : Nat → FieldFactory
deriving DecidableEq

/-- The positional argument handed to a field factory for nested
fields: either another field class or a derived schema class
(referenced here by its class name). -/
inductive NestedRef where
  | factoryRef : FieldFactory → NestedRef
  | schemaRef : String → NestedRef
deriving DecidableEq

/-- A configured field codec, i.e. the result of the
`FIELD_TAB[key](*field_args, default=..., many=..., required=...,
load_from=..., dump_to=..., allow_none=...)` call.  `cdefault = none`
models the marshmallow `missing` sentinel. -/
structure ConfiguredField where
  factory : FieldFactory
  args : List NestedRef
  cdefault : Option Value
  many : Bool
  required : Bool
  load_from : String
  dump_to : String
  allow_none : Bool

/-- A synthesized schema class: its name, its base classes (the
`schema_bases` tuple) and its own class dict of configured fields. -/
inductive SchemaCls where
  | mk : String → List SchemaCls → List (String × ConfiguredField) → SchemaCls

/-- The class name of a schema class. -/
def SchemaCls.sname : SchemaCls → String
  | SchemaCls.mk n _ _ => n

/-- The base-class tuple of a schema class. -/
def SchemaCls.bases : SchemaCls → List SchemaCls
  | SchemaCls.mk _ b _ => b

/-- The own class dict of a schema class. -/
def SchemaCls.attrs : SchemaCls → List (String × ConfiguredField)
  | SchemaCls.mk _ _ a => a

/-- Lookup in a class dict of configured fields. -/
def lookupCF : List (String × ConfiguredField) → String → Option ConfiguredField
  | [], _ => none
  | (n, f) :: rest, k => if n = k then some f else lookupCF rest k

mutual

/-- Attribute resolution on a schema class: own class dict first, then
the base classes in order (this is how marshmallow collects the field
set of a schema class through its inheritance chain). -/
def schemaLookup : SchemaCls → String → Option ConfiguredField
  | SchemaCls.mk _ bases attrs, k =>
    match lookupCF attrs k with
    | some f => some f
    | none => lookupBases bases k

/-- Attribute resolution along a list of base classes. -/
def lookupBases : List SchemaCls → String → Option ConfiguredField
  | [], _ => none
  | s :: rest, k =>
    match schemaLookup s k with
    | some f => some f
    | none => lookupBases rest k

end

/-- Errors `schema_factory` can raise while deriving one model:
`invalidModel key` is the ValueError raised by `get_schema_cls` (its
message names the offending model), `unknownFieldKey key` is the
KeyError of an unregistered `FIELD_TAB[key]` lookup, `typeErr` is the
TypeError of `issubclass` applied to a non-class annotation. -/
inductive Err where
  | invalidModel : TypeKey → Err
  | unknownFieldKey : TypeKey → Err
  | typeErr : Err
deriving DecidableEq

/-- What `get_schema_cls` returns: a registered field class, or the
`__schema__` attribute of an already-derived model. -/
inductive GetResult where
  | fieldCls : FieldFactory → GetResult
  | schemaCls : SchemaCls → GetResult

/-- The configuration captured by `schema_metafactory`: the field
namer, the caller-supplied extension of FIELD_TAB, and the schema base
class appended to every `schema_bases` tuple. -/
structure Env where
  field_namer : String → String
  extTab : List (TypeKey × FieldFactory)
  baseSchema : SchemaCls

/-- Lookup in the extension table. -/
def lookupTK : List (TypeKey × FieldFactory) → TypeKey → Option FieldFactory
  | [], _ => none
  | (k, f) :: rest, key => if k = key then some f else lookupTK rest key

/-- The builtin entries of FIELD_TAB. -/
def builtinTab : TypeKey → Option FieldFactory
  | TypeKey.kBool => some FieldFactory.boolean
  | TypeKey.kStr => some FieldFactory.stringF
  | TypeKey.kURL => some FieldFactory.url
  | TypeKey.kInt => some FieldFactory.integer
  | TypeKey.kNested => some FieldFactory.nested
  | TypeKey.kList => some FieldFactory.listF
  | TypeKey.kDatetime => some FieldFactory.dateTimeIso
  | TypeKey.kRaw => some FieldFactory.raw
  | TypeKey.kModel _ => none

/-- FIELD_TAB after `FIELD_TAB.update(extended_field_map or {})`:
caller entries take precedence over builtins. -/
def FIELD_TAB (env : Env) (k : TypeKey) : Option FieldFactory :=
  match lookupTK env.extTab k with
  | some f => some f
  | none => builtinTab k

/-- `getattr` of the `__schema__` attribute for a registry key: only
model classes can carry a derived schema attribute. -/
def modelSchemaOf (schemaOf : Nat → Option SchemaCls) : TypeKey → Option SchemaCls
  | TypeKey.kModel m => schemaOf m
  | _ => none

/-- `get_schema_cls` from the source: try `FIELD_TAB[model_cls]`, on a
KeyError try the `__schema__` attribute of the model, on an AttributeError
raise the ValueError whose message names the model. -/
def get_schema_cls (env : Env) (schemaOf : Nat → Option SchemaCls)
    (key : TypeKey) : Except Err GetResult :=
  match FIELD_TAB env key with
  | some f => Except.ok (GetResult.fieldCls f)
  | none =>
    match modelSchemaOf schemaOf key with
    | some s => Except.ok (GetResult.schemaCls s)
    | none => Except.error (Err.invalidModel key)

/-- Convert the result of `get_schema_cls` into the positional field
argument stored on the configured field. -/
def toNestedRef : GetResult → NestedRef
  | GetResult.fieldCls f => NestedRef.factoryRef f
  | GetResult.schemaCls s => NestedRef.schemaRef s.sname

/-- Lookup in the `irregular_names` table. -/
def lookupStr : List (String × String) → String → Option String
  | [], _ => none
  | (n, v) :: rest, k => if n = k then some v else lookupStr rest k

/-- The body of the field loop of `schema_factory` for one
`(kwname, fspec)` pair: classify the declared type, resolve the nested
schema through `get_schema_cls` when the type is One/Many/List, pick
the external name, and call the registered factory with
`default=fspec.default or missing, many=..., required=fspec.req,
load_from=..., dump_to=..., allow_none=fspec.allow_none`. -/
def resolveField (env : Env) (schemaOf : Nat → Option SchemaCls)
    (irregular : List (String × String)) (kwname : String)
    (fspec : FieldSpec) : Except Err ConfiguredField :=
  if fspec.type = Ann.emptyAnn then Except.error Err.typeErr
  else
    let step : Except Err (TypeKey × List NestedRef) :=
      if isNestedAnn fspec.type then
        let key := if isListAnn fspec.type then TypeKey.kList else TypeKey.kNested
        match get_schema_cls env schemaOf (innerKey fspec.type) with
        | Except.error e => Except.error e
        | Except.ok nt => Except.ok (key, [toNestedRef nt])
      else Except.ok (annKey fspec.type, [])
    match step with
    | Except.error e => Except.error e
    | Except.ok (key, field_args) =>
      let load_dump_to := (lookupStr irregular kwname).getD (env.field_namer kwname)
      match FIELD_TAB env key with
      | none => Except.error (Err.unknownFieldKey key)
      | some fac =>
        Except.ok
          { factory := fac
            args := field_args
            cdefault := if truthy fspec.default then some fspec.default else none
            many := isManyAnn fspec.type
            required := fspec.req
            load_from := load_dump_to
            dump_to := load_dump_to
            allow_none := fspec.allow_none }

/-- The whole field loop of `schema_factory`: build the schema class
dict entry by entry, aborting on the first error exactly as the Python
loop lets the first exception propagate. -/
def resolveAttrs (env : Env) (schemaOf : Nat → Option SchemaCls)
    (irregular : List (String × String)) :
    List (String × FieldSpec) → Except Err (List (String × ConfiguredField))
  | [] => Except.ok []
  | (n, fs) :: rest =>
    match resolveField env schemaOf irregular n fs with
    | Except.error e => Except.error e
    | Except.ok f =>
      match resolveAttrs env schemaOf irregular rest with
      | Except.error e => Except.error e
      | Except.ok tail => Except.ok ((n, f) :: tail)

/-- An `__init__` callable as it can sit on a model class: the
`object.__init__` slot, a hand-written (plain) constructor identified
by a number with its signature (its body is opaque to the engine and is
recorded as an event when it runs), or a `model_init` closure
synthesized by `schema_factory`, which captured the name of the model, its
`init_named_kwargs` and the `base_init` in force at derivation time. -/
inductive InitDesc where
  | objInit : InitDesc
  | plainInit : Nat → List Param → InitDesc
  | synthInit : String → List (String × FieldSpec) → InitDesc → InitDesc

/-- The signature of a synthesized `model_init`:
`(model_obj, _mro_offset=1, **kwargs)`. -/
def synthSig : List Param :=
  [ { name := "model_obj", kind := PKind.posOrKw, default := none, ann := Ann.emptyAnn }
  , { name := "_mro_offset", kind := PKind.posOrKw, default := some (Value.vint 1), ann := Ann.emptyAnn }
  , { name := "kwargs", kind := PKind.varKw, default := none, ann := Ann.emptyAnn } ]

/-- The signature of `object.__init__`: `(self, /, *args, **kwargs)`. -/
def objSig : List Param :=
  [ { name := "self", kind := PKind.posOnly, default := none, ann := Ann.emptyAnn }
  , { name := "args", kind := PKind.varPos, default := none, ann := Ann.emptyAnn }
  , { name := "kwargs", kind := PKind.varKw, default := none, ann := Ann.emptyAnn } ]

/-- `inspect.signature(init).parameters`. -/
def sigOf : InitDesc → List Param
  | InitDesc.objInit => objSig
  | InitDesc.plainInit _ ps => ps
  | InitDesc.synthInit _ _ _ => synthSig

/-- `is_model_init` from the source: an `__init__` was monkeypatched by
a schema factory iff its signature has a `_mro_offset` parameter. -/
def is_model_init (d : InitDesc) : Bool :=
  (sigOf d).any fun p => p.name == "_mro_offset"

/-- The class-level state of a model as `schema_factory` sees and
mutates it: class name, current `__init__`, the `irregular_names`
table, the `__schema__` entries of the own class dicts along the mro
(the model itself first), and whether `dump` / `load` are bound. -/
structure SModel where
  name : String
  init : InitDesc
  irregular : List (String × String)
  mroOwnSchemas : List (Option SchemaCls)
  hasDump : Bool
  hasLoad : Bool

/-- `schema_factory(model_cls)`: extract `init_named_kwargs` from the
current `__init__`, resolve every field (any exception propagates and
the pair `(model unchanged, the error)` is returned, since every
fallible step of the source precedes the first `setattr`), then build
`schema_bases` from the own-dict `__schema__` entries of the mro plus
the configured base schema class, create the schema class, and attach
`__schema__`, the new `model_init`, `dump` and `load` to the model. -/
def schema_factory (env : Env) (schemaOf : Nat → Option SchemaCls)
    (m : SModel) : SModel × Option Err :=
  let base_init := m.init
  let init_named_kwargs := extractSpecs (sigOf base_init)
  match resolveAttrs env schemaOf m.irregular init_named_kwargs with
  | Except.error e => (m, some e)
  | Except.ok schema_attrs =>
    let schema_bases := m.mroOwnSchemas.filterMap id ++ [env.baseSchema]
    let schema_cls := SchemaCls.mk (m.name ++ "Schema") schema_bases schema_attrs
    ({ m with
        mroOwnSchemas := some schema_cls :: m.mroOwnSchemas.tail
        init := InitDesc.synthInit m.name init_named_kwargs base_init
        hasDump := true
        hasLoad := true }, none)

/-- The `__schema__` attribute sitting on the model class itself. -/
def attachedSchema (m : SModel) : Option SchemaCls :=
  match m.mroOwnSchemas.head? with
  | some (some s) => some s
  | _ => none

/-- Attribute resolution through an optional schema class. -/
def schemaLookupO : Option SchemaCls → String → Option ConfiguredField
  | none, _ => none
  | some s, k => schemaLookup s k

/-- One entry of the method resolution order of a class under
construction: its name, whether it is the `object` root, and its
effective `__init__`. -/
structure ExecCls where
  cname : String
  isObj : Bool
  init : InitDesc

/-- Events recorded while a synthesized constructor runs. -/
inductive Ev where
  | enter : String → Ev
  | plainCall : Nat → KW → Ev
  | assignStep : String → Ev
  | setF : String → String → Value → Ev
  | factoryCall : String → String → Ev
  | fuelOut : Ev
  | idxErr : Ev

/-- One iteration of the field-assignment loop of `model_init`:
`attr = kwargs.get(kwname, fspec.default)`, the empty-collection and
empty-mapping rules, the `elif callable(fspec.default)` rule, then
`setattr(model_obj, kwname, attr)`. -/
def assignOne (mid : String) (kwargs : KW) (obj : KW) (kwname : String)
    (fspec : FieldSpec) : KW × List Ev :=
  let attr0 := (lookupKW kwargs kwname).getD fspec.default
  let attr1 := if isManyAnn fspec.type then por attr0 (Value.vlist []) else attr0
  let res :=
    if isRawAnn fspec.type then (por attr1 (Value.vdict []), ([] : List Ev))
    else if callable fspec.default then
      if truthy attr1 then (attr1, [])
      else (callValue fspec.default, [Ev.factoryCall mid kwname])
    else (attr1, [])
  (dictInsert obj kwname res.1, res.2 ++ [Ev.setF mid kwname res.1])

/-- The whole field-assignment loop of `model_init`, in order. -/
def assignFields (mid : String) (kwargs : KW) :
    List (String × FieldSpec) → KW → KW × List Ev
  | [], obj => (obj, [])
  | (n, fs) :: rest, obj =>
    let r1 := assignOne mid kwargs obj n fs
    let r2 := assignFields mid kwargs rest r1.1
    (r2.1, r1.2 ++ r2.2)

/-- The interpreter for an `__init__` callable, fuel-indexed because a
synthesized constructor may call other synthesized constructors.
`object.__init__` does nothing; a plain constructor records a call
event with the keyword arguments it received and its body stays
opaque; a synthesized `model_init` looks up
`next_in_line = mro[_mro_offset]`, delegates with `_mro_offset + 1`
when `is_model_init(next_in_line.__init__)`, else calls the plain
constructor once when `next_in_line is not object`, then runs its own
field-assignment loop, then calls the captured `base_init` with the
sifted keyword arguments (and hence with the default `_mro_offset=1`
when that `base_init` is itself synthesized). -/
def execDesc (mro : List ExecCls) :
    Nat → InitDesc → Nat → KW → KW → KW × List Ev
  | 0, _, _, obj, _ => (obj, [Ev.fuelOut])
  | _ + 1, InitDesc.objInit, _, obj, _ => (obj, [])
  | _ + 1, InitDesc.plainInit pid _, _, obj, kwargs =>
    (obj, [Ev.plainCall pid kwargs])
  | fuel + 1, InitDesc.synthInit mid fields base, offset, obj, kwargs =>
    let step1 : KW × List Ev :=
      match mro[offset]? with
      | none => (obj, [Ev.idxErr])
      | some next =>
        if is_model_init next.init then
          execDesc mro fuel next.init (offset + 1) obj (kwsift kwargs (sigOf next.init))
        else if !next.isObj then
          execDesc mro fuel next.init offset obj (kwsift kwargs (sigOf next.init))
        else (obj, [])
    let step2 := assignFields mid kwargs fields step1.1
    let step3 := execDesc mro fuel base 1 step2.1 (kwsift kwargs (sigOf base))
    (step3.1, (Ev.enter mid :: step1.2) ++ (Ev.assignStep mid :: step2.2) ++ step3.2)

/-- Constructing an instance: `model_cls(**kwargs)` invokes the
`__init__` of the first mro entry on a fresh empty instance dict with
the default `_mro_offset=1`. -/
def constructObj (mro : List ExecCls) (fuel : Nat) (kwargs : KW) : KW × List Ev :=
  match mro with
  | [] => ([], [])
  | c :: _ => execDesc mro fuel c.init 1 [] kwargs

/-- The trace part of a construction. -/
def constructTrace (mro : List ExecCls) (fuel : Nat) (kwargs : KW) : List Ev :=
  (constructObj mro fuel kwargs).2

/-- Project the delegation-entry events out of a trace. -/
def enterId : Ev → Option String
  | Ev.enter m => some m
  | _ => none

/-- Project the field-assignment-step events out of a trace. -/
def assignId : Ev → Option String
  | Ev.assignStep m => some m
  | _ => none

/-- Project the plain-constructor-call events out of a trace. -/
def plainId : Ev → Option Nat
  | Ev.plainCall p _ => some p
  | _ => none

/-- Project the single-field-assignment events out of a trace, as
(model, field) pairs. -/
def setFId : Ev → Option (String × String)
  | Ev.setF m f _ => some (m, f)
  | _ => none

/-- Count the calls of one plain constructor in a trace. -/
def countPlainPid (pid : Nat) (evs : List Ev) : Nat :=
  (evs.filter fun e =>
    match e with
    | Ev.plainCall q _ => q == pid
    | _ => false).length

/-- A model produced by one application of `schema_factory` to a class
with a hand-written constructor stub: the model name, its local field
specs, and the identity and signature of the captured plain stub. -/
structure ChainEnt where
  mid : String
  fields : List (String × FieldSpec)
  basePid : Nat
  baseParams : List Param

/-- The mro entry of such a model. -/
def entCls (e : ChainEnt) : ExecCls :=
  { cname := e.mid
    isObj := false
    init := InitDesc.synthInit e.mid e.fields (InitDesc.plainInit e.basePid e.baseParams) }

/-- The plain-constructor calls contributed by the first
non-synthesized ancestor: one call when it is a plain class, none when
the chain ends at `object`. -/
def stopIds (t : ExecCls) : List Nat :=
  if t.isObj then []
  else
    match t.init with
    | InitDesc.plainInit q _ => [q]
    | _ => []

/-- The (model, field) tags of the local field list of one model. -/
def tagList (mid : String) (fields : List (String × FieldSpec)) :
    List (String × String) :=
  fields.map fun nf => (mid, nf.1)

/-- Concatenate a list of lists. -/
def flatCat : List (List α) → List α
  | [] => []
  | x :: xs => x ++ flatCat xs

/-- A minimal configuration: identity field namer, no extension table,
a field-less schema base class. -/
def env0 : Env :=
  { field_namer := fun s => s
    extTab := []
    baseSchema := SchemaCls.mk "Schema" [] [] }

/-- A world in which no model has a derived schema yet. -/
def schOf0 : Nat → Option SchemaCls := fun _ => none

/-- The usual `self` parameter of a hand-written constructor stub. -/
def selfP : Param :=
  { name := "self", kind := PKind.posOrKw, default := none, ann := Ann.emptyAnn }

/-- Is an `Except` result an error. -/
def isErrE : Except Err GetResult → Bool
  | Except.error _ => true
  | _ => false

/-- A stub model whose only keyword-only field is annotated with a bare
model class (number 5) that is neither registered nor derived. -/
def mBad : SModel :=
  { name := "M"
    init := InitDesc.plainInit 0
      [selfP, { name := "w", kind := PKind.kwOnly, default := none, ann := Ann.prim (TypeKey.kModel 5) }]
    irregular := []
    mroOwnSchemas := [none, none]
    hasDump := false
    hasLoad := false }

/-- A field spec whose declared default is the falsy integer 0. -/
def fspecFalsy : FieldSpec :=
  { default := Value.vint 0, type := Ann.prim TypeKey.kInt, req := false, allow_none := false }

/-- The codec configured for `fspecFalsy` under `env0`. -/
def cfAge : ConfiguredField :=
  { factory := FieldFactory.integer, args := [], cdefault := none, many := false
    required := false, load_from := "age", dump_to := "age", allow_none := false }

/-- C9: every error raised while `schema_factory` derives a model
(unknown field type, invalid field declaration, missing related schema)
aborts the derivation before any mutation of the model class: when the
run reports an error, the returned class state is exactly the input
class state, so no `__schema__`, no synthesized `__init__`, and no
`dump`/`load` binding was attached. -/
theorem c9_error_atomicity (env : Env) (schemaOf : Nat → Option SchemaCls)
    (m : SModel) (e : Err) (h : (schema_factory env schemaOf m).2 = some e) :
    (schema_factory env schemaOf m).1 = m := by
  simp only [schema_factory] at h ⊢
  cases hres : resolveAttrs env schemaOf m.irregular (extractSpecs (sigOf m.init)) with
  | error e2 => rfl
  | ok attrs => rw [hres] at h; simp at h

/-- C9 witness: deriving `mBad` fails with the KeyError on the
unregistered model key, and leaves the class untouched. -/
theorem c9_witness : (schema_factory env0 schOf0 mBad).1 = mBad :=
  c9_error_atomicity env0 schOf0 mBad
    (Err.unknownFieldKey (TypeKey.kModel 5)) (by rfl)

/-- C8: `get_schema_cls` fails exactly when the key is neither a
registered entry of FIELD_TAB nor a model carrying an already-derived
`__schema__`, and the error it raises is always the ValueError that
names the offending key, so a nested reference to an underived related
model surfaces the identity of that model. -/
theorem c8_resolve_errors (env : Env) (schemaOf : Nat → Option SchemaCls)
    (key : TypeKey) :
    (isErrE (get_schema_cls env schemaOf key) = true ↔
      (FIELD_TAB env key = none ∧ modelSchemaOf schemaOf key = none))
    ∧ (∀ e, get_schema_cls env schemaOf key = Except.error e →
        e = Err.invalidModel key) := by
  cases h1 : FIELD_TAB env key with
  | some f => simp [get_schema_cls, h1, isErrE]
  | none =>
    cases h2 : modelSchemaOf schemaOf key with
    | some s => simp [get_schema_cls, h1, h2, isErrE]
    | none =>
      refine ⟨by simp [get_schema_cls, h1, h2, isErrE], ?_⟩
      intro e he
      simp only [get_schema_cls, h1, h2] at he
      cases he
      rfl

/-- C8 witness: resolving an unregistered, underived model key fails. -/
theorem c8_witness : isErrE (get_schema_cls env0 schOf0 (TypeKey.kModel 3)) = true :=
  (c8_resolve_errors env0 schOf0 (TypeKey.kModel 3)).1.mpr ⟨rfl, rfl⟩

/-- C10: when the field loop configures a codec, the codec receives the
`missing` sentinel as its default whenever the extracted default is
falsy, and receives the declared default itself exactly when that
default is truthy (`default=fspec.default or missing`). -/
theorem c10_falsy_default_missing (env : Env) (schemaOf : Nat → Option SchemaCls)
    (irr : List (String × String)) (kwname : String) (fspec : FieldSpec)
    (cf : ConfiguredField)
    (h : resolveField env schemaOf irr kwname fspec = Except.ok cf) :
    (truthy fspec.default = false → cf.cdefault = none)
    ∧ (truthy fspec.default = true → cf.cdefault = some fspec.default) := by
  simp only [resolveField] at h
  split at h
  · cases h
  · split at h
    · cases h
    · split at h
      · cases h
      · cases h
        constructor
        · intro ht; simp [ht]
        · intro ht; simp [ht]

/-- C10 witness: a declared default of 0 reaches the codec as the
missing sentinel. -/
theorem c10_witness : cfAge.cdefault = none :=
  (c10_falsy_default_missing env0 schOf0 [] "age" fspecFalsy cfAge (by rfl)).1 (by rfl)

/-- A keyword-only string parameter with no default. -/
def nameP : Param :=
  { name := "name", kind := PKind.kwOnly, default := none, ann := Ann.prim TypeKey.kStr }

/-- A keyword-only int parameter with default 0. -/
def ageP : Param :=
  { name := "age", kind := PKind.kwOnly, default := some (Value.vint 0), ann := Ann.prim TypeKey.kInt }

/-- A small constructor signature mixing positional and keyword-only
parameters. -/
def psC4 : List Param := [selfP, nameP, ageP]

/-- C4: the `init_named_kwargs` extraction yields, for every
keyword-only parameter, a field spec with `required` true iff no
default was declared, `allow_none` true iff the declared default is
exactly None, and the stored default being the declared default or the
None sentinel; parameters that are not keyword-only yield no entry. -/
theorem c4_fieldspec_extraction (ps : List Param)
    (hnd : (ps.map Param.name).Nodup) (p : Param) (hp : p ∈ ps) :
    (p.kind = PKind.kwOnly →
      ((p.name, mkFieldSpec p) ∈ extractSpecs ps
        ∧ ((mkFieldSpec p).req = true ↔ p.default = none)
        ∧ ((mkFieldSpec p).allow_none = true ↔ p.default = some Value.vnone)
        ∧ (mkFieldSpec p).default = p.default.getD Value.vnone))
    ∧ (p.kind ≠ PKind.kwOnly → ∀ fs, (p.name, fs) ∉ extractSpecs ps) := by
  constructor
  · intro hk
    refine ⟨List.mem_filterMap.mpr ⟨p, hp, by simp [hk]⟩, ?_, ?_, rfl⟩
    · simp [mkFieldSpec, Option.isNone_iff_eq_none]
    · cases hd : p.default with
      | none => simp [mkFieldSpec, hd]
      | some v => cases v <;> simp [mkFieldSpec, hd]
  · intro hk fs hmem
    obtain ⟨q, hq, hqe⟩ := List.mem_filterMap.mp hmem
    by_cases hqk : q.kind = PKind.kwOnly
    · rw [if_pos hqk] at hqe
      have hn : q.name = p.name := congrArg Prod.fst (Option.some.inj hqe)
      have hqp : q = p := List.inj_on_of_nodup_map hnd hq hp hn
      exact hk (hqp ▸ hqk)
    · rw [if_neg hqk] at hqe
      cases hqe

/-- C4 witness: extraction at the concrete signature `psC4`, for its
keyword-only parameter `age` with declared default 0. -/
theorem c4_witness :
    ("age", mkFieldSpec ageP) ∈ extractSpecs psC4
      ∧ ((mkFieldSpec ageP).req = true ↔ ageP.default = none)
      ∧ ((mkFieldSpec ageP).allow_none = true ↔ ageP.default = some Value.vnone)
      ∧ (mkFieldSpec ageP).default = ageP.default.getD Value.vnone :=
  (c4_fieldspec_extraction psC4 (by decide) ageP
    (List.mem_cons_of_mem selfP (List.mem_cons_of_mem nameP
      (List.mem_cons_self ageP [])))).1 rfl

/-- Lookup after a dictionary update. -/
theorem lookupKW_dictInsert : ∀ (out : KW) (n : String) (v : Value) (k : String),
    lookupKW (dictInsert out n v) k = if n = k then some v else lookupKW out k
  | [], n, v, k => by simp [dictInsert, lookupKW]
  | (hn, hv) :: tl, n, v, k => by
    by_cases h1 : hn = n
    · subst h1
      by_cases h2 : hn = k <;> simp [dictInsert, lookupKW, h2]
    · by_cases h2 : hn = k
      · subst h2
        have hnk : n ≠ hn := fun h => h1 h.symm
        simp [dictInsert, lookupKW, h1, hnk]
      · simp [dictInsert, lookupKW, h1, h2, lookupKW_dictInsert tl n v k]

/-- The sifting loop returns the whole dictionary as soon as any
remaining parameter is VAR_KEYWORD. -/
theorem kwsiftGo_varKw (kw : KW) : ∀ (ps : List Param) (out : KW),
    (∃ p ∈ ps, p.kind = PKind.varKw) → kwsiftGo kw ps out = kw
  | [], _, h => absurd h (by simp)
  | p :: rest, out, h => by
    by_cases hk : p.kind = PKind.varKw
    · simp [kwsiftGo, hk]
    · have hr : ∃ q ∈ rest, q.kind = PKind.varKw := by
        obtain ⟨q, hq, hqk⟩ := h
        rcases List.mem_cons.mp hq with rfl | hq2
        · exact absurd hqk hk
        · exact ⟨q, hq2, hqk⟩
      simp only [kwsiftGo, if_neg hk]
      cases hsc : (if kwAccept p.kind then lookupKW kw p.name else none) with
      | some v => exact kwsiftGo_varKw kw rest (dictInsert out p.name v) hr
      | none => exact kwsiftGo_varKw kw rest out hr

/-- When no remaining parameter is VAR_KEYWORD, the sifting loop
behaves, entrywise, like filtering the dictionary by the
keyword-acceptable parameter names. -/
theorem kwsiftGo_lookup (kw : KW) : ∀ (ps : List Param) (out : KW) (k : String),
    (∀ p ∈ ps, p.kind ≠ PKind.varKw) →
    lookupKW (kwsiftGo kw ps out) k =
      if ∃ p ∈ ps, p.name = k ∧ kwAccept p.kind = true ∧ (lookupKW kw k).isSome = true
      then lookupKW kw k else lookupKW out k
  | [], out, k, _ => by simp [kwsiftGo]
  | p :: rest, out, k, hnv => by
    have hpk : p.kind ≠ PKind.varKw := hnv p (List.mem_cons_self p rest)
    have hnv2 : ∀ q ∈ rest, q.kind ≠ PKind.varKw :=
      fun q hq => hnv q (List.mem_cons_of_mem p hq)
    simp only [kwsiftGo, if_neg hpk]
    cases hsc : (if kwAccept p.kind then lookupKW kw p.name else none) with
    | some v =>
      have hacc : kwAccept p.kind = true := by
        by_contra hx
        rw [if_neg hx] at hsc
        cases hsc
      have hlp : lookupKW kw p.name = some v := by
        rw [if_pos hacc] at hsc
        exact hsc
      rw [kwsiftGo_lookup kw rest (dictInsert out p.name v) k hnv2,
        lookupKW_dictInsert]
      by_cases hr : ∃ q ∈ rest, q.name = k ∧ kwAccept q.kind = true ∧ (lookupKW kw k).isSome = true
      · rw [if_pos hr]
        obtain ⟨q, hq, hrest⟩ := hr
        rw [if_pos ⟨q, List.mem_cons_of_mem p hq, hrest⟩]
      · rw [if_neg hr]
        by_cases hnk : p.name = k
        · subst hnk
          rw [if_pos rfl, hlp,
            if_pos ⟨p, List.mem_cons_self p rest, rfl, hacc, rfl⟩]
        · rw [if_neg hnk]
          have : ¬ ∃ q ∈ p :: rest, q.name = k ∧ kwAccept q.kind = true ∧ (lookupKW kw k).isSome = true := by
            rintro ⟨q, hq, hqn, hqa, hqs⟩
            rcases List.mem_cons.mp hq with rfl | hq2
            · exact hnk hqn
            · exact hr ⟨q, hq2, hqn, hqa, hqs⟩
          rw [if_neg this]
    | none =>
      rw [kwsiftGo_lookup kw rest out k hnv2]
      have hiff : (∃ q ∈ p :: rest, q.name = k ∧ kwAccept q.kind = true ∧ (lookupKW kw k).isSome = true)
          ↔ (∃ q ∈ rest, q.name = k ∧ kwAccept q.kind = true ∧ (lookupKW kw k).isSome = true) := by
        constructor
        · rintro ⟨q, hq, hqn, hqa, hqs⟩
          rcases List.mem_cons.mp hq with rfl | hq2
          · exfalso
            rw [if_pos hqa, hqn] at hsc
            rw [hsc] at hqs
            cases hqs
          · exact ⟨q, hq2, hqn, hqa, hqs⟩
        · rintro ⟨q, hq, hrest⟩
          exact ⟨q, List.mem_cons_of_mem p hq, hrest⟩
      by_cases hr : ∃ q ∈ rest, q.name = k ∧ kwAccept q.kind = true ∧ (lookupKW kw k).isSome = true
      · rw [if_pos hr, if_pos (hiff.mpr hr)]
      · rw [if_neg hr, if_neg (fun hc => hr (hiff.mp hc))]

/-- C7: `kwsift` returns the whole keyword dictionary unchanged when
the target accepts a variadic keyword parameter, and otherwise returns
exactly the subset of entries whose keys name keyword-only or
positional-or-keyword parameters of the target, with unchanged
values. -/
theorem c7_kwsift (kw : KW) (ps : List Param) :
    ((∃ p ∈ ps, p.kind = PKind.varKw) → kwsift kw ps = kw)
    ∧ ((∀ p ∈ ps, p.kind ≠ PKind.varKw) →
        ∀ k, lookupKW (kwsift kw ps) k =
          if ∃ p ∈ ps, p.name = k ∧ kwAccept p.kind = true
          then lookupKW kw k else none) := by
  constructor
  · rintro ⟨p, hp, hk⟩
    exact kwsiftGo_varKw kw ps.reverse [] ⟨p, List.mem_reverse.mpr hp, hk⟩
  · intro hnv k
    rw [kwsift, kwsiftGo_lookup kw ps.reverse [] k
      (fun q hq => hnv q (List.mem_reverse.mp hq))]
    by_cases h1 : ∃ p ∈ ps, p.name = k ∧ kwAccept p.kind = true
    · rw [if_pos h1]
      obtain ⟨p, hp, hn, ha⟩ := h1
      by_cases h2 : (lookupKW kw k).isSome = true
      · rw [if_pos ⟨p, List.mem_reverse.mpr hp, hn, ha, h2⟩]
      · have hlk : lookupKW kw k = none := by
          cases h : lookupKW kw k with
          | none => rfl
          | some v => rw [h] at h2; exact absurd rfl h2
        rw [if_neg (by rintro ⟨q, _, _, _, hs⟩; exact h2 hs), hlk]
        rfl
    · rw [if_neg h1,
        if_neg (by
          rintro ⟨q, hq, hn, ha, _⟩
          exact h1 ⟨q, List.mem_reverse.mp hq, hn, ha⟩)]
      rfl

/-- A signature ending in a variadic keyword parameter. -/
def varKwP : Param :=
  { name := "kwargs", kind := PKind.varKw, default := none, ann := Ann.emptyAnn }

/-- A two-parameter signature with `**kwargs`. -/
def psVar : List Param := [selfP, varKwP]

/-- A concrete keyword dictionary. -/
def kwEx : KW := [("a", Value.vint 1), ("z", Value.vint 2)]

/-- C7 witness: sifting against a signature with `**kwargs` returns
the dictionary unchanged. -/
theorem c7_witness : kwsift kwEx psVar = kwEx :=
  (c7_kwsift kwEx psVar).1
    ⟨varKwP, List.mem_cons_of_mem selfP (List.mem_cons_self varKwP []), rfl⟩

/-- One member of a mutually-referencing model pair: a stub whose only
keyword-only field is `ref: One[model other] = None`. -/
def mutModel (nm : String) (other : Nat) : SModel :=
  { name := nm
    init := InitDesc.plainInit 0
      [selfP, { name := "ref", kind := PKind.kwOnly, default := some Value.vnone, ann := Ann.one (TypeKey.kModel other) }]
    irregular := []
    mroOwnSchemas := [none, none]
    hasDump := false
    hasLoad := false }

/-- C2 counterexample: for the mutually-referencing pair A (model 0)
and B (model 1), deriving either member terminates immediately with
the missing-derived-schema ValueError naming the other model, and
leaves the class state untouched.  The embedded error type, translated
from the source, has no cycle-detection error at all and
`get_schema_cls` performs no recursive derivation, so the failure is
not the claimed CyclicSchemaDependency reached through recursion. -/
theorem c2_counterexample :
    (schema_factory env0 schOf0 (mutModel "A" 1)).2
        = some (Err.invalidModel (TypeKey.kModel 1))
    ∧ (schema_factory env0 schOf0 (mutModel "B" 0)).2
        = some (Err.invalidModel (TypeKey.kModel 0))
    ∧ (schema_factory env0 schOf0 (mutModel "A" 1)).1 = mutModel "A" 1 :=
  ⟨rfl, rfl, rfl⟩

/-- C2 amended: when the first keyword-only field of a model references
a related model that is neither registered in FIELD_TAB nor carries a
derived schema, derivation does not recurse into the related model; it
terminates at once with the ValueError naming that related model and
leaves the class state unchanged.  In particular deriving either
member of a mutually-referencing pair fails this way. -/
theorem c2_amended (env : Env) (schemaOf : Nat → Option SchemaCls) (m : SModel)
    (fname : String) (fs : FieldSpec) (rest : List (String × FieldSpec)) (j : Nat)
    (hspec : extractSpecs (sigOf m.init) = (fname, fs) :: rest)
    (hnest : isNestedAnn fs.type = true)
    (hinner : innerKey fs.type = TypeKey.kModel j)
    (htab : FIELD_TAB env (TypeKey.kModel j) = none)
    (hsch : schemaOf j = none) :
    schema_factory env schemaOf m = (m, some (Err.invalidModel (TypeKey.kModel j))) := by
  have hne : fs.type ≠ Ann.emptyAnn := by
    intro h
    rw [h] at hnest
    cases hnest
  simp [schema_factory, hspec, resolveAttrs, resolveField, hne, hnest, hinner,
    get_schema_cls, htab, hsch, modelSchemaOf]

/-- C2 amended witness: the concrete mutual pair member A. -/
theorem c2_amended_witness :
    schema_factory env0 schOf0 (mutModel "A" 1)
      = (mutModel "A" 1, some (Err.invalidModel (TypeKey.kModel 1))) :=
  c2_amended env0 schOf0 (mutModel "A" 1) "ref"
    { default := Value.vnone, type := Ann.one (TypeKey.kModel 1), req := false, allow_none := true }
    [] 1 (by rfl) (by rfl) (by rfl) (by rfl) (by rfl)

/-- A model whose only keyword-only field `x` has a default-factory
default: a zero-argument callable returning the string "hello". -/
def mC3 : SModel :=
  { name := "M"
    init := InitDesc.plainInit 0
      [selfP, { name := "x", kind := PKind.kwOnly, default := some (Value.vfunc (Value.vstr "hello")), ann := Ann.prim TypeKey.kStr }]
    irregular := []
    mroOwnSchemas := [none, none]
    hasDump := false
    hasLoad := false }

/-- `mC3` after derivation. -/
def mC3d : SModel := (schema_factory env0 schOf0 mC3).1

/-- The mro of the derived `mC3`: the model itself over `object`. -/
def mroC3 : List ExecCls :=
  [ { cname := "M", isObj := false, init := mC3d.init }
  , { cname := "object", isObj := true, init := InitDesc.objInit } ]

/-- Project default-factory invocations out of a trace. -/
def factoryId : Ev → Option (String × String)
  | Ev.factoryCall m f => some (m, f)
  | _ => none

/-- C3, failing input: the synthesized constructor of `mC3`, run with
no keyword arguments, leaves the field `x` bound to the factory
function object itself and never invokes the factory; run with the
supplied falsy value `x = ""` it does invoke the factory and stores its
result.  The rule of the spec — invoke the default factory lazily, and only
when no value was supplied — is inverted by the
`attr = attr or fspec.default()` line, because the callable itself is
truthy and a supplied falsy value is not. -/
theorem c3_default_factory_divergence :
    lookupKW (constructObj mroC3 10 []).1 "x"
        = some (Value.vfunc (Value.vstr "hello"))
    ∧ (constructTrace mroC3 10 []).filterMap factoryId = []
    ∧ lookupKW (constructObj mroC3 10 [("x", Value.vstr "")]).1 "x"
        = some (Value.vstr "hello")
    ∧ (constructTrace mroC3 10 [("x", Value.vstr "")]).filterMap factoryId
        = [("M", "x")] :=
  ⟨rfl, rfl, rfl, rfl⟩

/-- Unfolding equation for `schemaLookup`. -/
theorem schemaLookup_mk (n : String) (bs : List SchemaCls)
    (al : List (String × ConfiguredField)) (k : String) :
    schemaLookup (SchemaCls.mk n bs al) k =
      match lookupCF al k with
      | some f => some f
      | none => lookupBases bs k := by
  rw [schemaLookup]

/-- Unfolding equation for `lookupBases` on a cons. -/
theorem lookupBases_cons (s : SchemaCls) (ss : List SchemaCls) (k : String) :
    lookupBases (s :: ss) k =
      match schemaLookup s k with
      | some f => some f
      | none => lookupBases ss k := by
  rw [lookupBases]

/-- Unfolding equation for `lookupBases` on nil. -/
theorem lookupBases_nil (k : String) : lookupBases [] k = none := by
  rw [lookupBases]

/-- A stub model with one keyword-only string field `a`, sitting above
a plain parent class and `object`. -/
def mC6 : SModel :=
  { name := "M"
    init := InitDesc.plainInit 1
      [selfP, { name := "a", kind := PKind.kwOnly, default := none, ann := Ann.prim TypeKey.kStr }]
    irregular := []
    mroOwnSchemas := [none, none, none]
    hasDump := false
    hasLoad := false }

/-- `mC6` after one derivation. -/
def mC6d1 : SModel := (schema_factory env0 schOf0 mC6).1

/-- `mC6` after two derivations. -/
def mC6d2 : SModel := (schema_factory env0 schOf0 mC6d1).1

/-- The plain parent class of `mC6`, with constructor number 7. -/
def pCls : ExecCls := { cname := "P", isObj := false, init := InitDesc.plainInit 7 [selfP] }

/-- The `object` root. -/
def objCls : ExecCls := { cname := "object", isObj := true, init := InitDesc.objInit }

/-- The mro of `mC6` after one derivation. -/
def mroC6d1 : List ExecCls :=
  [{ cname := "M", isObj := false, init := mC6d1.init }, pCls, objCls]

/-- The mro of `mC6` after two derivations. -/
def mroC6d2 : List ExecCls :=
  [{ cname := "M", isObj := false, init := mC6d2.init }, pCls, objCls]

/-- C6 counterexample: after deriving `mC6` twice, one construction of
an instance calls the plain parent constructor (number 7) twice, while
after a single derivation it is called once — the synthesized
constructor behaviour after two derivations does not equal the
behaviour after one, because the re-derivation captures the first
synthesized `model_init` as its `base_init` and that captured closure
restarts the mro walk at offset 1. -/
theorem c6_counterexample :
    countPlainPid 7 (constructTrace mroC6d2 20 [("a", Value.vstr "v")]) = 2
    ∧ countPlainPid 7 (constructTrace mroC6d1 20 [("a", Value.vstr "v")]) = 1 :=
  ⟨rfl, rfl⟩

/-- C6 amended: re-derivation is idempotent for the schema field
mapping but not for constructor behaviour.  This theorem proves the
schema half: deriving a model a second time attaches a fresh schema
class with an empty own dict that inherits the first schema class, so
attribute resolution over the re-derived schema agrees everywhere with
the first schema.  (The constructor half fails: see the
counterexample, where a plain ancestor constructor runs twice per
construction after re-derivation.) -/
theorem c6_amended (env : Env) (schemaOf : Nat → Option SchemaCls) (m : SModel)
    (h0 : m.mroOwnSchemas.head? = some none)
    (h1 : (schema_factory env schemaOf m).2 = none) (k : String) :
    schemaLookupO (attachedSchema
        (schema_factory env schemaOf (schema_factory env schemaOf m).1).1) k
      = schemaLookupO (attachedSchema (schema_factory env schemaOf m).1) k := by
  cases hres : resolveAttrs env schemaOf m.irregular (extractSpecs (sigOf m.init)) with
  | error e =>
    simp only [schema_factory, hres] at h1
    cases h1
  | ok attrs =>
    cases hmro : m.mroOwnSchemas with
    | nil => rw [hmro] at h0; cases h0
    | cons o tail =>
      have ho : o = none := by
        rw [hmro] at h0
        cases h0
        rfl
      subst ho
      simp only [schema_factory, hres, hmro]
      simp only [List.tail_cons, List.filterMap_cons, id]
      have hres2 : resolveAttrs env schemaOf m.irregular
          (extractSpecs (sigOf (InitDesc.synthInit m.name (extractSpecs (sigOf m.init)) m.init)))
          = Except.ok [] := rfl
      simp only [hres2]
      simp only [attachedSchema, schemaLookupO, List.head?_cons, List.filterMap_cons, id]
      rw [schemaLookup_mk]
      have hcf : lookupCF [] k = none := rfl
      rw [hcf]
      dsimp only
      rw [List.cons_append, lookupBases_cons]
      cases hs : schemaLookup
          (SchemaCls.mk (m.name ++ "Schema") (List.filterMap id tail ++ [env.baseSchema]) attrs) k with
      | some f => rfl
      | none =>
        rw [schemaLookup_mk] at hs
        cases hl : lookupCF attrs k with
        | some f => rw [hl] at hs; cases hs
        | none => rw [hl] at hs; exact hs

/-- C6 amended witness: the schema field mapping of `mC6` agrees at
field `a` after one and two derivations. -/
theorem c6_amended_witness :
    schemaLookupO (attachedSchema
        (schema_factory env0 schOf0 (schema_factory env0 schOf0 mC6).1).1) "a"
      = schemaLookupO (attachedSchema (schema_factory env0 schOf0 mC6).1) "a" :=
  c6_amended env0 schOf0 mC6 (by rfl) (by rfl) "a"

/-- C5: for a model deriving from one schema-derived ancestor A (so
the own-dict `__schema__` entries along its mro are exactly the schema
class of A), the synthesized schema resolves every field name to the
freshly configured own field of the model when it declares one, and to
the resolution of A otherwise — the definition in B shadows the one of
A on redeclared names,
every A field is inherited, and attribute resolution being a function
yields each ancestor field exactly once. -/
theorem c5_inheritance_composition (env : Env) (schemaOf : Nat → Option SchemaCls)
    (m : SModel) (sA : SchemaCls) (attrs : List (String × ConfiguredField))
    (hm : m.mroOwnSchemas.filterMap id = [sA])
    (hbase : ∀ q, schemaLookup env.baseSchema q = none)
    (hres : resolveAttrs env schemaOf m.irregular (extractSpecs (sigOf m.init))
      = Except.ok attrs)
    (k : String) :
    schemaLookupO (attachedSchema (schema_factory env schemaOf m).1) k
      = match lookupCF attrs k with
        | some f => some f
        | none => schemaLookup sA k := by
  simp only [schema_factory, hres, hm]
  simp only [attachedSchema, schemaLookupO, List.head?_cons]
  rw [schemaLookup_mk]
  cases hl : lookupCF attrs k with
  | some f => rfl
  | none =>
    dsimp only
    rw [List.singleton_append, lookupBases_cons]
    cases hs : schemaLookup sA k with
    | some f => rfl
    | none =>
      dsimp only
      rw [lookupBases_cons, hbase k]
      exact lookupBases_nil k

/-- Ancestor field `x` of the concrete schema `sA0`. -/
def fAx : ConfiguredField :=
  { factory := FieldFactory.integer, args := [], cdefault := none, many := false
    required := true, load_from := "x", dump_to := "x", allow_none := false }

/-- Ancestor field `a` of the concrete schema `sA0`. -/
def fAa : ConfiguredField :=
  { factory := FieldFactory.stringF, args := [], cdefault := none, many := false
    required := true, load_from := "a", dump_to := "a", allow_none := false }

/-- A derived ancestor schema with fields `a` and `x`. -/
def sA0 : SchemaCls :=
  SchemaCls.mk "ASchema" [SchemaCls.mk "Schema" [] []] [("a", fAa), ("x", fAx)]

/-- The field the derivation of `mB` configures for its local `a`. -/
def fBa : ConfiguredField :=
  { factory := FieldFactory.stringF, args := [], cdefault := none, many := false
    required := true, load_from := "a", dump_to := "a", allow_none := false }

/-- A model B deriving from the ancestor carrying `sA0`, redeclaring
field `a` and inheriting field `x`. -/
def mB : SModel :=
  { name := "B"
    init := InitDesc.plainInit 3
      [selfP, { name := "a", kind := PKind.kwOnly, default := none, ann := Ann.prim TypeKey.kStr }]
    irregular := []
    mroOwnSchemas := [none, some sA0, none]
    hasDump := false
    hasLoad := false }

/-- The base schema class of `env0` has no fields. -/
theorem env0_base_lookup (q : String) : schemaLookup env0.baseSchema q = none := by
  show schemaLookup (SchemaCls.mk "Schema" [] []) q = none
  rw [schemaLookup_mk]
  exact lookupBases_nil q

/-- C5 witness: the derived schema of `mB` resolves the inherited
field name `x` through `sA0`. -/
theorem c5_witness :
    schemaLookupO (attachedSchema (schema_factory env0 schOf0 mB).1) "x"
      = match lookupCF [("a", fBa)] "x" with
        | some f => some f
        | none => schemaLookup sA0 "x" :=
  c5_inheritance_composition env0 schOf0 mB sA0 [("a", fBa)]
    (by rfl) env0_base_lookup (by rfl) "x"

/-- A dropped suffix determines the element at its start index. -/
theorem getElem?_of_drop : ∀ (l : List α) (k : Nat) (x : α) (xs : List α),
    l.drop k = x :: xs → l[k]? = some x
  | l, 0, x, xs, h => by simp at h; simp [h]
  | [], kk + 1, x, xs, h => by simp at h
  | y :: ys, kk + 1, x, xs, h => by
    simp only [List.drop_succ_cons] at h
    simpa using getElem?_of_drop ys kk x xs h

/-- A dropped suffix determines the next dropped suffix. -/
theorem drop_succ_of_drop : ∀ (l : List α) (k : Nat) (x : α) (xs : List α),
    l.drop k = x :: xs → l.drop (k + 1) = xs
  | l, 0, x, xs, h => by simp at h; simp [h]
  | [], kk + 1, x, xs, h => by simp at h
  | y :: ys, kk + 1, x, xs, h => by
    simp only [List.drop_succ_cons] at h
    simpa using drop_succ_of_drop ys kk x xs h

/-- `is_model_init` holds of every synthesized constructor. -/
theorem is_model_init_synth (a : String) (b : List (String × FieldSpec))
    (c : InitDesc) : is_model_init (InitDesc.synthInit a b c) = true := rfl

/-- `flatCat` distributes over append. -/
theorem flatCat_append : ∀ (a b : List (List α)),
    flatCat (a ++ b) = flatCat a ++ flatCat b
  | [], b => rfl
  | x :: xs, b => by
    simp only [List.cons_append, flatCat, List.append_eq,
      flatCat_append xs b, List.append_assoc]

/-- The events of one field assignment: possibly a factory invocation,
then the set event; no delegation, assignment-step or plain-call
events. -/
theorem assignOne_projs (mid : String) (kw obj : KW) (n : String) (f : FieldSpec) :
    (assignOne mid kw obj n f).2.filterMap enterId = []
    ∧ (assignOne mid kw obj n f).2.filterMap assignId = []
    ∧ (assignOne mid kw obj n f).2.filterMap plainId = []
    ∧ (assignOne mid kw obj n f).2.filterMap setFId = [(mid, n)] := by
  unfold assignOne
  dsimp only
  repeat' split
  all_goals simp [enterId, assignId, plainId, setFId]

/-- The events of the whole field-assignment loop: exactly one set
event per local field, in order, and nothing else. -/
theorem assignFields_projs (mid : String) (kw : KW) :
    ∀ (fs : List (String × FieldSpec)) (obj : KW),
    (assignFields mid kw fs obj).2.filterMap enterId = []
    ∧ (assignFields mid kw fs obj).2.filterMap assignId = []
    ∧ (assignFields mid kw fs obj).2.filterMap plainId = []
    ∧ (assignFields mid kw fs obj).2.filterMap setFId = tagList mid fs
  | [], obj => by simp [assignFields, tagList]
  | (n, f) :: rest, obj => by
    obtain ⟨h1, h2, h3, h4⟩ := assignOne_projs mid kw obj n f
    obtain ⟨g1, g2, g3, g4⟩ :=
      assignFields_projs mid kw rest (assignOne mid kw obj n f).1
    simp [assignFields, List.filterMap_append, h1, h2, h3, h4, g1, g2, g3, g4,
      tagList]

/-- Delegation-entry events of an assignment loop. -/
theorem assignFields_enter (mid : String) (kw : KW) (fs : List (String × FieldSpec))
    (obj : KW) : (assignFields mid kw fs obj).2.filterMap enterId = [] :=
  (assignFields_projs mid kw fs obj).1

/-- Assignment-step events of an assignment loop. -/
theorem assignFields_assign (mid : String) (kw : KW) (fs : List (String × FieldSpec))
    (obj : KW) : (assignFields mid kw fs obj).2.filterMap assignId = [] :=
  (assignFields_projs mid kw fs obj).2.1

/-- Plain-call events of an assignment loop. -/
theorem assignFields_plain (mid : String) (kw : KW) (fs : List (String × FieldSpec))
    (obj : KW) : (assignFields mid kw fs obj).2.filterMap plainId = [] :=
  (assignFields_projs mid kw fs obj).2.2.1

/-- Set events of an assignment loop. -/
theorem assignFields_set (mid : String) (kw : KW) (fs : List (String × FieldSpec))
    (obj : KW) : (assignFields mid kw fs obj).2.filterMap setFId = tagList mid fs :=
  (assignFields_projs mid kw fs obj).2.2.2

/-- Unfolding equation for the interpreter on a plain constructor. -/
theorem execDesc_plain (mro : List ExecCls) (n : Nat) (pid : Nat) (ps : List Param)
    (off : Nat) (obj kw : KW) :
    execDesc mro (n + 1) (InitDesc.plainInit pid ps) off obj kw
      = (obj, [Ev.plainCall pid kw]) := rfl

/-- Unfolding equation for the interpreter on `object.__init__`. -/
theorem execDesc_obj (mro : List ExecCls) (n : Nat) (off : Nat) (obj kw : KW) :
    execDesc mro (n + 1) InitDesc.objInit off obj kw = (obj, []) := rfl

/-- One-layer unfolding equation for the interpreter on a synthesized
constructor. -/
theorem execDesc_synth_eq (mro : List ExecCls) (n : Nat) (mid : String)
    (fields : List (String × FieldSpec)) (base : InitDesc) (k : Nat) (obj kw : KW) :
    execDesc mro (n + 1) (InitDesc.synthInit mid fields base) k obj kw =
      (let step1 : KW × List Ev :=
        match mro[k]? with
        | none => (obj, [Ev.idxErr])
        | some next =>
          if is_model_init next.init then
            execDesc mro n next.init (k + 1) obj (kwsift kw (sigOf next.init))
          else if !next.isObj then
            execDesc mro n next.init k obj (kwsift kw (sigOf next.init))
          else (obj, [])
      let step2 := assignFields mid kw fields step1.1
      let step3 := execDesc mro n base 1 step2.1 (kwsift kw (sigOf base))
      (step3.1, (Ev.enter mid :: step1.2) ++ (Ev.assignStep mid :: step2.2) ++ step3.2)) := rfl

/-- The interpreter on a synthesized constructor whose next-in-line is
itself synthesized: delegate with the incremented offset. -/
theorem execDesc_synth_deleg (mro : List ExecCls) (n : Nat) (mid : String)
    (fields : List (String × FieldSpec)) (base : InitDesc) (k : Nat) (obj kw : KW)
    (next : ExecCls) (hk : mro[k]? = some next)
    (hnext : is_model_init next.init = true) :
    execDesc mro (n + 1) (InitDesc.synthInit mid fields base) k obj kw =
      (let d := execDesc mro n next.init (k + 1) obj (kwsift kw (sigOf next.init))
       let s2 := assignFields mid kw fields d.1
       let s3 := execDesc mro n base 1 s2.1 (kwsift kw (sigOf base))
       (s3.1, (Ev.enter mid :: d.2) ++ (Ev.assignStep mid :: s2.2) ++ s3.2)) := by
  rw [execDesc_synth_eq]
  dsimp only
  rw [hk]
  dsimp only
  rw [if_pos hnext]

/-- The interpreter on a synthesized constructor whose next-in-line is
a plain non-object class: call it once, without the offset bump. -/
theorem execDesc_synth_plainNext (mro : List ExecCls) (n : Nat) (mid : String)
    (fields : List (String × FieldSpec)) (base : InitDesc) (k : Nat) (obj kw : KW)
    (next : ExecCls) (hk : mro[k]? = some next)
    (h1 : is_model_init next.init = false) (h2 : next.isObj = false) :
    execDesc mro (n + 1) (InitDesc.synthInit mid fields base) k obj kw =
      (let d := execDesc mro n next.init k obj (kwsift kw (sigOf next.init))
       let s2 := assignFields mid kw fields d.1
       let s3 := execDesc mro n base 1 s2.1 (kwsift kw (sigOf base))
       (s3.1, (Ev.enter mid :: d.2) ++ (Ev.assignStep mid :: s2.2) ++ s3.2)) := by
  rw [execDesc_synth_eq]
  dsimp only
  rw [hk]
  dsimp only
  rw [if_neg (by simp [h1]), if_pos (by simp [h2])]

/-- The interpreter on a synthesized constructor whose next-in-line is
`object`: ancestor delegation does nothing. -/
theorem execDesc_synth_objNext (mro : List ExecCls) (n : Nat) (mid : String)
    (fields : List (String × FieldSpec)) (base : InitDesc) (k : Nat) (obj kw : KW)
    (next : ExecCls) (hk : mro[k]? = some next)
    (h1 : is_model_init next.init = false) (h2 : next.isObj = true) :
    execDesc mro (n + 1) (InitDesc.synthInit mid fields base) k obj kw =
      (let s2 := assignFields mid kw fields obj
       let s3 := execDesc mro n base 1 s2.1 (kwsift kw (sigOf base))
       (s3.1, (Ev.enter mid :: ([] : List Ev)) ++ (Ev.assignStep mid :: s2.2) ++ s3.2)) := by
  rw [execDesc_synth_eq]
  dsimp only
  rw [hk]
  dsimp only
  rw [if_neg (by simp [h1]), if_neg (by simp [h2])]

/-- Core lemma for the exactly-once guarantee: executing the
synthesized constructor of a model whose mro from position `k` onward
consists of once-synthesized models (each with a plain captured stub),
then a terminating class `t` that is not synthesized, produces a trace
whose delegation entries are exactly the synthesized chain in mro
order, whose assignment steps are exactly the chain in reverse order,
whose plain-constructor calls are the terminator (once, when it is a
plain class) followed by the captured stubs in reverse order, and
whose field assignments are each declared field exactly once. -/
theorem chain_exec (t : ExecCls) (more : List ExecCls)
    (ht : is_model_init t.init = false) :
    ∀ (suffix : List ChainEnt) (mro : List ExecCls) (k fuel : Nat)
      (mid : String) (fields : List (String × FieldSpec)) (bp : Nat)
      (bps : List Param) (obj kw : KW),
      mro.drop k = suffix.map entCls ++ t :: more →
      suffix.length + 2 ≤ fuel →
      ((execDesc mro fuel (InitDesc.synthInit mid fields (InitDesc.plainInit bp bps)) k obj kw).2.filterMap enterId
          = mid :: suffix.map ChainEnt.mid)
      ∧ ((execDesc mro fuel (InitDesc.synthInit mid fields (InitDesc.plainInit bp bps)) k obj kw).2.filterMap assignId
          = (mid :: suffix.map ChainEnt.mid).reverse)
      ∧ ((execDesc mro fuel (InitDesc.synthInit mid fields (InitDesc.plainInit bp bps)) k obj kw).2.filterMap plainId
          = stopIds t ++ (bp :: suffix.map ChainEnt.basePid).reverse)
      ∧ ((execDesc mro fuel (InitDesc.synthInit mid fields (InitDesc.plainInit bp bps)) k obj kw).2.filterMap setFId
          = flatCat ((tagList mid fields :: suffix.map (fun e => tagList e.mid e.fields)).reverse)) := by
  intro suffix
  induction suffix with
  | nil =>
    intro mro k fuel mid fields bp bps obj kw hdrop hfuel
    obtain ⟨F, rfl⟩ : ∃ F, fuel = F + 2 := ⟨fuel - 2, by omega⟩
    have hk : mro[k]? = some t := getElem?_of_drop mro k t more (by simpa using hdrop)
    cases hto : t.isObj with
    | true =>
      rw [show F + 2 = (F + 1) + 1 from rfl,
        execDesc_synth_objNext mro (F + 1) mid fields (InitDesc.plainInit bp bps)
          k obj kw t hk ht hto]
      dsimp only [sigOf]
      rw [execDesc_plain]
      simp [List.filterMap_append, List.filterMap_cons, enterId, assignId, plainId,
        setFId, assignFields_enter, assignFields_assign, assignFields_plain,
        assignFields_set, stopIds, hto, tagList, flatCat]
    | false =>
      cases hti : t.init with
      | synthInit a b c =>
        rw [hti, is_model_init_synth] at ht
        cases ht
      | objInit =>
        rw [show F + 2 = (F + 1) + 1 from rfl,
          execDesc_synth_plainNext mro (F + 1) mid fields (InitDesc.plainInit bp bps)
            k obj kw t hk ht hto]
        rw [hti]
        dsimp only [sigOf]
        rw [execDesc_obj, execDesc_plain]
        simp [List.filterMap_append, List.filterMap_cons, enterId, assignId, plainId,
          setFId, assignFields_enter, assignFields_assign, assignFields_plain,
          assignFields_set, stopIds, hto, hti, tagList, flatCat]
      | plainInit q qs =>
        rw [show F + 2 = (F + 1) + 1 from rfl,
          execDesc_synth_plainNext mro (F + 1) mid fields (InitDesc.plainInit bp bps)
            k obj kw t hk ht hto]
        rw [hti]
        dsimp only [sigOf]
        rw [execDesc_plain, execDesc_plain]
        simp [List.filterMap_append, List.filterMap_cons, enterId, assignId, plainId,
          setFId, assignFields_enter, assignFields_assign, assignFields_plain,
          assignFields_set, stopIds, hto, hti, tagList, flatCat]
  | cons e rest ih =>
    intro mro k fuel mid fields bp bps obj kw hdrop hfuel
    obtain ⟨F, rfl⟩ : ∃ F, fuel = F + 2 := ⟨fuel - 2, by omega⟩
    have hk : mro[k]? = some (entCls e) :=
      getElem?_of_drop mro k (entCls e) (rest.map entCls ++ t :: more)
        (by simpa using hdrop)
    have hdrop2 : mro.drop (k + 1) = rest.map entCls ++ t :: more :=
      drop_succ_of_drop mro k (entCls e) (rest.map entCls ++ t :: more)
        (by simpa using hdrop)
    have hfuel2 : rest.length + 2 ≤ F + 1 := by
      simp only [List.length_cons] at hfuel
      omega
    have hmi : is_model_init (entCls e).init = true := rfl
    obtain ⟨i1, i2, i3, i4⟩ := ih mro (k + 1) (F + 1) e.mid e.fields e.basePid
      e.baseParams obj (kwsift kw synthSig) hdrop2 hfuel2
    rw [show F + 2 = (F + 1) + 1 from rfl,
      execDesc_synth_deleg mro (F + 1) mid fields (InitDesc.plainInit bp bps)
        k obj kw (entCls e) hk hmi]
    dsimp only [entCls, sigOf]
    rw [execDesc_plain]
    refine ⟨?_, ?_, ?_, ?_⟩
    · simp [List.filterMap_append, List.filterMap_cons, enterId, i1,
        assignFields_enter]
    · simp [List.filterMap_append, List.filterMap_cons, assignId, i2,
        assignFields_assign, List.reverse_cons, List.append_assoc]
    · simp [List.filterMap_append, List.filterMap_cons, plainId, i3,
        assignFields_plain, List.reverse_cons, List.append_assoc]
    · simp [List.filterMap_append, List.filterMap_cons, setFId, i4,
        assignFields_set, List.reverse_cons, flatCat_append, flatCat,
        List.append_assoc]

/-- C1: constructing an instance of a model whose mro is a chain of
once-synthesized models (each synthesized from a hand-written plain
stub) over a first non-synthesized class `t`: the delegation enters
every synthesized ancestor exactly once, in mro order, never
re-entering or skipping one; it invokes the first non-synthesized
plain ancestor constructor exactly once and then stops delegating
(`t` contributes one plain call when it is a plain class, none when it
is `object`); the local field-assignment step of every ancestor runs
exactly once; every declared field is assigned exactly once; and every
captured original stub runs exactly once. -/
theorem c1_constructor_exactly_once (e0 : ChainEnt) (suffix : List ChainEnt)
    (t : ExecCls) (more : List ExecCls) (fuel : Nat) (kw : KW)
    (ht : is_model_init t.init = false)
    (hfuel : suffix.length + 2 ≤ fuel) :
    ((constructTrace (entCls e0 :: (suffix.map entCls ++ t :: more)) fuel kw).filterMap enterId
        = e0.mid :: suffix.map ChainEnt.mid)
    ∧ ((constructTrace (entCls e0 :: (suffix.map entCls ++ t :: more)) fuel kw).filterMap assignId
        = (e0.mid :: suffix.map ChainEnt.mid).reverse)
    ∧ ((constructTrace (entCls e0 :: (suffix.map entCls ++ t :: more)) fuel kw).filterMap plainId
        = stopIds t ++ (e0.basePid :: suffix.map ChainEnt.basePid).reverse)
    ∧ ((constructTrace (entCls e0 :: (suffix.map entCls ++ t :: more)) fuel kw).filterMap setFId
        = flatCat ((tagList e0.mid e0.fields
            :: suffix.map (fun e => tagList e.mid e.fields)).reverse)) :=
  chain_exec t more ht suffix (entCls e0 :: (suffix.map entCls ++ t :: more)) 1 fuel
    e0.mid e0.fields e0.basePid e0.baseParams [] kw rfl hfuel

/-- A field spec for concrete chain models. -/
def fsX : FieldSpec :=
  { default := Value.vnone, type := Ann.prim TypeKey.kStr, req := true, allow_none := false }

/-- The leaf of a concrete three-model chain. -/
def eC : ChainEnt :=
  { mid := "C", fields := [("c1", fsX)], basePid := 10, baseParams := [selfP] }

/-- The middle model of the chain. -/
def eB : ChainEnt :=
  { mid := "B", fields := [("b1", fsX)], basePid := 11, baseParams := [selfP] }

/-- The uppermost synthesized model of the chain. -/
def eA : ChainEnt :=
  { mid := "A", fields := [("a1", fsX)], basePid := 12, baseParams := [selfP] }

/-- A plain, non-synthesized ancestor class ending the chain. -/
def tPlain : ExecCls :=
  { cname := "P", isObj := false, init := InitDesc.plainInit 7 [selfP] }

/-- C1 witness: the concrete chain C over B over A over the plain
class P over object, constructed with one keyword argument. -/
theorem c1_witness :
    ((constructTrace (entCls eC :: ([eB, eA].map entCls ++ tPlain :: [objCls])) 10
        [("c1", Value.vstr "v")]).filterMap enterId
        = eC.mid :: [eB, eA].map ChainEnt.mid)
    ∧ ((constructTrace (entCls eC :: ([eB, eA].map entCls ++ tPlain :: [objCls])) 10
        [("c1", Value.vstr "v")]).filterMap assignId
        = (eC.mid :: [eB, eA].map ChainEnt.mid).reverse)
    ∧ ((constructTrace (entCls eC :: ([eB, eA].map entCls ++ tPlain :: [objCls])) 10
        [("c1", Value.vstr "v")]).filterMap plainId
        = stopIds tPlain ++ (eC.basePid :: [eB, eA].map ChainEnt.basePid).reverse)
    ∧ ((constructTrace (entCls eC :: ([eB, eA].map entCls ++ tPlain :: [objCls])) 10
        [("c1", Value.vstr "v")]).filterMap setFId
        = flatCat ((tagList eC.mid eC.fields
            :: [eB, eA].map (fun e => tagList e.mid e.fields)).reverse)) :=
  c1_constructor_exactly_once eC [eB, eA] tPlain [objCls] 10
    [("c1", Value.vstr "v")] (by rfl) (by decide)

end SchemaFactory
